import Mathlib

/-!
Verification of `bin/ingest_archive_video.py` against its specification.

The script scans a directory of `.mp4` files, derives anthology identifiers
from the filenames, and inserts `<video href=...>` tags into the matching
paper nodes of the per-collection XML documents, rewriting each document
after every insertion.

Shallow embedding conventions:
  * Python `str` values are Lean `String`s (a `String` is a list of code
    points, like a Python `str`); each Python string operation used by the
    script is embedded as a small executable function on `String.data`.
  * The filesystem is passed in explicitly: directory listings are
    `List String` arguments, `et.parse` is a `load : String → Xml` argument,
    and each `update_xml` call is recorded as a `(path, tree)` event.
  * The fatal, uncaught conditions (a path-query miss) are modelled by
    `Option`: `none` is process termination.
-/

/-! ## Python string primitives -/

/-- Python `len(s)`: the number of code points of `s`. -/
def pyLen (s : String) : Nat := s.data.length

/-- Python slicing `s[n:]`: everything after the first `n` code points. -/
def pySliceFrom (s : String) (n : Nat) : String := String.mk (s.data.drop n)

/-- Python `s.startswith(t)`. -/
def pyStartsWith (s t : String) : Bool := t.data.isPrefixOf s.data

/-- Python `s.endswith(t)`: `t` is a suffix of `s`. -/
def pyEndsWith (s t : String) : Bool := t.data.reverse.isPrefixOf s.data.reverse

/-- Python `t in s`: `t` occurs as a contiguous substring of `s`. -/
def pyContains (s t : String) : Bool :=
  (List.range (s.data.length + 1)).any (fun i => t.data.isPrefixOf (s.data.drop i))

/-- Splitting a character list at every occurrence of `sep`, keeping empty
pieces: the core of Python `str.split(sep)` for a one-character separator
(`''.split(sep) == ['']`, `'a.b'.split('.') == ['a','b']`). -/
def splitCharAux (sep : Char) : List Char → List (List Char)
  | [] => [[]]
  | c :: cs =>
    match splitCharAux sep cs with
    | [] => [[c]]
    | h :: t => if c = sep then [] :: h :: t else (c :: h) :: t

/-- Python `s.split(sep)` for a one-character separator `sep`. -/
def pySplit (s : String) (sep : Char) : List String :=
  (splitCharAux sep s.data).map String.mk

/-- Python `<` on strings: lexicographic comparison of code points, a
shorter string preceding any proper extension of it. -/
def charListLt : List Char → List Char → Bool
  | [], [] => false
  | [], _ :: _ => true
  | _ :: _, [] => false
  | a :: as, b :: bs => if a < b then true else if b < a then false else charListLt as bs

/-- Python `a < b` on strings. -/
def strLtB (a b : String) : Bool := charListLt a.data b.data

/-- The comparison `list.sort()` uses on the `[anth_id, vid_num]` entries of
`anth_ids_multiple`: lexicographic over the string elements. -/
def strListLe : List String → List String → Bool
  | [], _ => true
  | _ :: _, [] => false
  | a :: as, b :: bs => if strLtB a b then true else if strLtB b a then false else strListLe as bs

/-! ## `os.path` and `glob` primitives (POSIX rules, as CPython implements
them) -/

/-- `os.path.join(d, name)` for a single component. -/
def osJoin (d name : String) : String :=
  if pyStartsWith name "/" then name
  else if d = "" then name
  else if pyEndsWith d "/" then d ++ name
  else d ++ "/" ++ name

/-- The directory part `os.path.split` extracts from the glob pattern
`f"{video_dir}/*.mp4"`: the head `video_dir ++ "/"` with its trailing
slashes stripped, unless the head consists solely of slashes, in which case
it is kept as is. -/
def globDirname (video_dir : String) : String :=
  let head := video_dir ++ "/"
  if head.data.all (fun c => c == '/') then head
  else String.mk ((head.data.reverse.dropWhile (fun c => c == '/')).reverse)

/-- `glob.glob(f"{video_dir}/*.mp4")`: `listing` is the list of entry names
of the scanned directory in the order the OS reports them. The pattern
keeps the names that end in `.mp4` and do not start with a dot (`*` does
not match a leading dot), and each match is returned as
`os.path.join(dirname, name)` for the pattern's directory part. -/
def globMp4 (video_dir : String) (listing : List String) : List String :=
  (listing.filter (fun n => pyEndsWith n ".mp4" && !pyStartsWith n ".")).map
    (fun n => osJoin (globDirname video_dir) n)

/-- `os.path.splitext` for a directory-entry name: split before the last
period, except that periods leading the name do not start an extension
(`splitext(".bashrc") == (".bashrc", "")`, `splitext("N13.xml") == ("N13", ".xml")`). -/
def pySplitext (p : String) : String × String :=
  let cs := p.data
  let leading := (cs.takeWhile (fun c => c == '.')).length
  let dots := (List.range cs.length).filter
    (fun i => decide (leading ≤ i) && (cs.getD i ' ' == '.'))
  let cut := dots.getLastD cs.length
  (String.mk (cs.take cut), String.mk (cs.drop cut))

/-! ## The identifier convention (external to the script) -/

/-- Modelled from the spec: `deconstruct_anthology_id` is imported from
`anthology.utils`, which is not among the sources here; the spec treats it
as "an established convention external to this tool" (sections 4.1 and 6).
Per section 4.1 the collection code is the leading alphanumeric portion of
the identifier (the part before the dash), and per the section 8 scenario
the identifier `N13-1001` yields volume id `13` and paper id `1001`: the
volume code is the numeric tail of the collection code and the paper code
is the portion after the dash. -/
def deconstruct_anthology_id (anth_id : String) : String × String × String :=
  let parts := pySplit anth_id '-'
  let collection_id := parts.headD ""
  let volume_id := String.mk (collection_id.data.dropWhile Char.isAlpha)
  let paper_id := String.intercalate "-" parts.tail
  (collection_id, volume_id, paper_id)

/-! ## The scanner (`get_collection_ids`, `get_anth_ids`) -/

/-- The stripping `file[len(video_dir):]` applied to every globbed path. -/
def stripLen (video_dir file : String) : String := pySliceFrom file (pyLen video_dir)

/-- `get_collection_ids`: over all `.mp4` files of the video dir, drop the
first `len(video_dir)` characters, split on periods, take the first piece,
deconstruct it and keep the collection component; `list(set(...))` is
embedded as duplicate removal (the script relies on membership only). -/
def get_collection_ids (video_dir : String) (listing : List String) : List String :=
  ((globMp4 video_dir listing).map
    (fun file =>
      (deconstruct_anthology_id ((pySplit (stripLen video_dir file) '.').headD "")).1)).eraseDups

/-- `get_anth_ids`: the stripped name of a globbed file is split on periods;
exactly two pieces classify it as a single-video id (the first piece), more
than two classify it as a multi-video entry `split[0:-1]`; the multi-video
list is then sorted in place (Python `list.sort()`, lexicographic over the
entries). -/
def get_anth_ids (video_dir : String) (listing : List String) :
    List String × List (List String) :=
  let files := globMp4 video_dir listing
  let anth_ids_single :=
    (files.filter (fun file => (pySplit (stripLen video_dir file) '.').length == 2)).map
      (fun file => (pySplit (stripLen video_dir file) '.').headD "")
  let anth_ids_multiple :=
    (files.filter (fun file => decide (2 < (pySplit (stripLen video_dir file) '.').length))).map
      (fun file => (pySplit (stripLen video_dir file) '.').dropLast)
  (anth_ids_single, anth_ids_multiple.mergeSort strListLe)

/-! ## The XML document model -/

/-- An element of the parsed document (`lxml` element): tag, attributes in
document order, children in document order. Text content is never read nor
written by the script and is not represented. -/
inductive Xml where
  | elem (tag : String) (attrs : List (String × String)) (children : List Xml)

/-- The tag of a node. -/
def Xml.tag : Xml → String
  | .elem t _ _ => t

/-- The attribute list of a node. -/
def Xml.attrs : Xml → List (String × String)
  | .elem _ a _ => a

/-- The child list of a node. -/
def Xml.children : Xml → List Xml
  | .elem _ _ c => c

/-- Does `x` match the path step `t[@id="v"]`: its tag is `t` and its `id`
attribute has value `v`. -/
def matchesStep (t v : String) (x : Xml) : Bool :=
  x.tag == t && ((x.attrs.find? (fun kv => kv.1 == "id")).map Prod.snd == some v)

/-- Appending a new last child to a node (what `lxml` does when an element
is built with a `parent`). -/
def appendChild (x c : Xml) : Xml := Xml.elem x.tag x.attrs (x.children ++ [c])

/-- The first element of `l` that `f` accepts, mapped through `f`. -/
def firstSome {α β : Type} (f : α → Option β) : List α → Option β
  | [] => none
  | x :: xs =>
    match f x with
    | some y => some y
    | none => firstSome f xs

/-- `paper[@id="p"]` inside a volume node: the first matching child. -/
def findPaperInVolume (p : String) (vol : Xml) : Option Xml :=
  vol.children.find? (matchesStep "paper" p)

/-- `xml_parse.find(f'./volume[@id="{v}"]/paper[@id="{p}"]')`: the first
node in document order reached by the two path steps, or `none`. -/
def findVolumePaper (root : Xml) (v p : String) : Option Xml :=
  firstSome
    (fun x => if matchesStep "volume" v x then findPaperInVolume p x else none)
    root.children

/-- Rewrite the first element of the list accepted by `pred` through `f`;
`none` when no element is accepted. -/
def replaceFirst {α : Type} (pred : α → Bool) (f : α → α) : List α → Option (List α)
  | [] => none
  | x :: xs =>
    if pred x then some (f x :: xs)
    else (replaceFirst pred f xs).map (fun l => x :: l)

/-- Append `c` to the first `paper[@id="p"]` child of a volume node. -/
def appendInVolume (p : String) (c : Xml) (vol : Xml) : Option Xml :=
  (replaceFirst (matchesStep "paper" p) (fun paper => appendChild paper c) vol.children).map
    (fun ch => Xml.elem vol.tag vol.attrs ch)

/-- Rewrite the first element of the list on which `f` succeeds; `none`
when `f` fails on every element. -/
def mapFirstSome {α : Type} (f : α → Option α) : List α → Option (List α)
  | [] => none
  | x :: xs =>
    match f x with
    | some y => some (y :: xs)
    | none => (mapFirstSome f xs).map (fun l => x :: l)

/-- `make_simple_element(tag, attrib=...)` without a parent: a fresh leaf
node. Modelled from the spec: the helper lives in `anthology.utils`, outside
the sources here; section 4.4 has it append the new node as the last child
of the located paper node. -/
def make_simple_element (tag : String) (attrib : List (String × String)) : Xml :=
  Xml.elem tag attrib []

/-- The combination `paper = xml_parse.find(...)`;
`make_simple_element(..., parent=paper)`: append `c` as the last child of
the first node matching `./volume[@id="v"]/paper[@id="p"]`. Modelled from
the spec where the sources end: when the path query yields nothing, the
spec (sections 4.3 and 7(c)) declares the run fatally terminated, which the
embedding renders as `none`. -/
def findAndAppend (root : Xml) (v p : String) (c : Xml) : Option Xml :=
  (mapFirstSome
    (fun x => if matchesStep "volume" v x then appendInVolume p c x else none)
    root.children).map
    (fun ch => Xml.elem root.tag root.attrs ch)

/-- `add_video_tag_single`: deconstruct the id, locate the paper node and
append a `video` tag whose `href` is the id plus `".mp4"`. -/
def add_video_tag_single (anth_id : String) (xml_parse : Xml) : Option Xml :=
  let d := deconstruct_anthology_id anth_id
  let video_url := anth_id ++ ".mp4"
  findAndAppend xml_parse d.2.1 d.2.2 (make_simple_element "video" [("href", video_url)])

/-- `add_video_tag_multiple`: as `add_video_tag_single`, with `href` equal
to the id plus `f'.{vid_num}'` plus `".mp4"`. -/
def add_video_tag_multiple (anth_id vid_num : String) (xml_parse : Xml) : Option Xml :=
  let d := deconstruct_anthology_id anth_id
  let video_url := anth_id ++ "." ++ vid_num ++ ".mp4"
  findAndAppend xml_parse d.2.1 d.2.2 (make_simple_element "video" [("href", video_url)])

/-! ## The orchestrator (`main`, `update_xml`) -/

/-- The path `update_xml` writes to:
`os.path.join(data_dir, collection_id + extention)`. -/
def update_xml_path (data_dir collection_id extention : String) : String :=
  osJoin data_dir (collection_id ++ extention)

/-- The `for anth_id in anth_ids_single` loop of `main` for one document:
every id the document's base code occurs in (Python `collection_id in
anth_id`) is inserted and immediately followed by an `update_xml` of the
whole document; the returned list records the writes in order, each with
the tree it serialized. `none` is the fatal path-query miss. -/
def processSingles (data_dir collection_id extention : String) :
    List String → Xml → Option (Xml × List (String × Xml))
  | [], tree => some (tree, [])
  | anth_id :: rest, tree =>
    if pyContains anth_id collection_id then
      match add_video_tag_single anth_id tree with
      | none => none
      | some tree2 =>
        (processSingles data_dir collection_id extention rest tree2).map
          (fun r => (r.1, (update_xml_path data_dir collection_id extention, tree2) :: r.2))
    else processSingles data_dir collection_id extention rest tree

/-- The `for anth_id_vid_num in anth_ids_multiple` loop of `main` for one
document; an entry is `[anth_id, vid_num]` (in the pipeline every entry has
at least two elements, so the defaulted lookups agree with Python's
`anth_id_vid_num[0]` and `[1]`). -/
def processMultiples (data_dir collection_id extention : String) :
    List (List String) → Xml → Option (Xml × List (String × Xml))
  | [], tree => some (tree, [])
  | entry :: rest, tree =>
    let anth_id := entry.headD ""
    let vid_num := entry.getD 1 ""
    if pyContains anth_id collection_id then
      match add_video_tag_multiple anth_id vid_num tree with
      | none => none
      | some tree2 =>
        (processMultiples data_dir collection_id extention rest tree2).map
          (fun r => (r.1, (update_xml_path data_dir collection_id extention, tree2) :: r.2))
    else processMultiples data_dir collection_id extention rest tree

/-- The body of `main`'s `for file in xml_files` loop for one document:
split the name into base and extension, run the single-video loop, then the
multi-video loop, on the same in-memory tree. -/
def processFile (data_dir : String) (singles : List String)
    (multiples : List (List String)) (file : String) (tree : Xml) :
    Option (Xml × List (String × Xml)) :=
  let se := pySplitext file
  match processSingles data_dir se.1 se.2 singles tree with
  | none => none
  | some r1 =>
    (processMultiples data_dir se.1 se.2 multiples r1.1).map
      (fun r2 => (r2.1, r1.2 ++ r2.2))

/-- `main`'s document loop: each selected file is parsed fresh
(`load (os.path.join(DATA_DIR, file))`) and processed; the write events of
all documents are concatenated in order. -/
def processFiles (data_dir : String) (load : String → Xml)
    (singles : List String) (multiples : List (List String)) :
    List String → Option (List (String × Xml))
  | [] => some []
  | file :: rest =>
    match processFile data_dir singles multiples file (load (osJoin data_dir file)) with
    | none => none
    | some r =>
      (processFiles data_dir load singles multiples rest).map (fun ws => r.2 ++ ws)

/-- The `xml_files` selection of `main`: the entries of the metadata
directory whose base name (without extension) is an observed collection
code. -/
def select_xml_files (collection_ids : List String) (data_listing : List String) :
    List String :=
  data_listing.filter (fun file => collection_ids.contains (pySplitext file).1)

/-- `main`: scan the video dir, select the candidate documents, and process
them; the result is the full ordered trace of `update_xml` writes, or
`none` when a path-query miss kills the run. `DATA_DIR` is passed as
`data_dir` (in the script it is a constant computed from the install
location). -/
def main_model (video_dir data_dir : String) (video_listing data_listing : List String)
    (load : String → Xml) : Option (List (String × Xml)) :=
  let collection_ids := get_collection_ids video_dir video_listing
  let xml_files := select_xml_files collection_ids data_listing
  let ids := get_anth_ids video_dir video_listing
  processFiles data_dir load ids.1 ids.2 xml_files

/-- Sequential composition of the single-video insertions of a list of
identifiers, used to state which insertions a document received. -/
def insertAllSingle : List String → Xml → Option Xml
  | [], tree => some tree
  | a :: rest, tree => (add_video_tag_single a tree).bind (insertAllSingle rest)

/-! ## Concrete fixtures for witnesses and counterexamples -/

/-- A paper node with id `1001`. -/
def examplePaper : Xml := Xml.elem "paper" [("id", "1001")] [Xml.elem "title" [] []]

/-- A document holding `examplePaper` under volume `13`, as `N13.xml` would. -/
def exampleDoc : Xml :=
  Xml.elem "collection" [("id", "N13")] [Xml.elem "volume" [("id", "13")] [examplePaper]]

/-- A document holding volume `13` / paper `1001` (for the id `N13-1001`)
and volume `99` / paper `N134` (for the id `X99-N134`). -/
def mixedDoc : Xml :=
  Xml.elem "collection" []
    [Xml.elem "volume" [("id", "13")] [Xml.elem "paper" [("id", "1001")] []],
     Xml.elem "volume" [("id", "99")] [Xml.elem "paper" [("id", "N134")] []]]

/-- `exampleDoc` after the insertion for `N13-1001`. -/
def exampleDoc1 : Xml :=
  Xml.elem "collection" [("id", "N13")]
    [Xml.elem "volume" [("id", "13")]
       [Xml.elem "paper" [("id", "1001")]
          [Xml.elem "title" [] [], Xml.elem "video" [("href", "N13-1001.mp4")] []]]]

/-- `mixedDoc` after the insertion for `N13-1001`. -/
def mixedDoc1 : Xml :=
  Xml.elem "collection" []
    [Xml.elem "volume" [("id", "13")]
       [Xml.elem "paper" [("id", "1001")] [Xml.elem "video" [("href", "N13-1001.mp4")] []]],
     Xml.elem "volume" [("id", "99")] [Xml.elem "paper" [("id", "N134")] []]]

/-- `mixedDoc1` after the further insertion for `X99-N134`. -/
def mixedDoc2 : Xml :=
  Xml.elem "collection" []
    [Xml.elem "volume" [("id", "13")]
       [Xml.elem "paper" [("id", "1001")] [Xml.elem "video" [("href", "N13-1001.mp4")] []]],
     Xml.elem "volume" [("id", "99")]
       [Xml.elem "paper" [("id", "N134")] [Xml.elem "video" [("href", "X99-N134.mp4")] []]]]

/-! # Theorems -/

/-! ## Generic helper lemmas -/

theorem str_mk_data (s : String) : String.mk s.data = s := rfl

theorem data_append (a b : String) : (a ++ b).data = a.data ++ b.data := rfl

/-- `splitCharAux` never returns the empty list. -/
theorem splitCharAux_ne_nil (sep : Char) : ∀ l : List Char, splitCharAux sep l ≠ [] := by
  intro l
  cases l with
  | nil => simp [splitCharAux]
  | cons c cs =>
    rcases hrec : splitCharAux sep cs with _ | ⟨h0, t0⟩
    · simp [splitCharAux, hrec]
    · by_cases hc : c = sep <;> simp [splitCharAux, hrec, hc]

/-- The number of pieces is the number of separators plus one. -/
theorem length_splitCharAux (sep : Char) :
    ∀ l : List Char, (splitCharAux sep l).length = l.count sep + 1 := by
  intro l
  induction l with
  | nil => simp [splitCharAux]
  | cons c cs ih =>
    rcases hrec : splitCharAux sep cs with _ | ⟨h0, t0⟩
    · exact absurd hrec (splitCharAux_ne_nil sep cs)
    · rw [hrec] at ih
      by_cases hc : c = sep
      · subst hc
        simp only [splitCharAux, hrec, if_pos rfl, List.count_cons, List.length_cons] at ih ⊢
        simp at ih ⊢
        omega
      · simp only [splitCharAux, hrec, if_neg hc, List.count_cons, List.length_cons] at ih ⊢
        have : (c == sep) = false := by simp [hc]
        simp [this] at ih ⊢
        omega

/-- Splitting a list whose first character is not the separator keeps that
character at the front of the first piece. -/
theorem splitCharAux_cons_ne (sep c : Char) (cs : List Char) (hc : ¬ c = sep) :
    ∃ h0 t0, splitCharAux sep (c :: cs) = (c :: h0) :: t0 := by
  rcases hrec : splitCharAux sep cs with _ | ⟨h0, t0⟩
  · exact absurd hrec (splitCharAux_ne_nil sep cs)
  · exact ⟨h0, t0, by simp [splitCharAux, hrec, hc]⟩

/-! ## The lexicographic order used by `list.sort()` -/

theorem charListLt_trans :
    ∀ a b c : List Char, charListLt a b = true → charListLt b c = true →
      charListLt a c = true := by
  intro a
  induction a with
  | nil =>
    intro b c h1 h2
    cases b with
    | nil => simp [charListLt] at h1
    | cons y ys =>
      cases c with
      | nil => simp [charListLt] at h2
      | cons z zs => simp [charListLt]
  | cons x xs ih =>
    intro b c h1 h2
    cases b with
    | nil => simp [charListLt] at h1
    | cons y ys =>
      cases c with
      | nil => simp [charListLt] at h2
      | cons z zs =>
        simp only [charListLt] at h1 h2 ⊢
        by_cases hxy : x < y
        · by_cases hyz : y < z
          · simp [lt_trans hxy hyz]
          · by_cases hzy : z < y
            · simp [hyz, hzy] at h2
            · have : x < z := lt_of_lt_of_le hxy (not_lt.mp hzy)
              simp [this]
        · by_cases hyx : y < x
          · simp [hxy, hyx] at h1
          · have hxey : x = y := le_antisymm (not_lt.mp hyx) (not_lt.mp hxy)
            subst hxey
            rw [if_neg hxy, if_neg hyx] at h1
            by_cases hyz : x < z
            · simp [hyz]
            · by_cases hzy : z < x
              · simp [hyz, hzy] at h2
              · rw [if_neg hyz, if_neg hzy] at h2 ⊢
                exact ih ys zs h1 h2

theorem charListLt_connex :
    ∀ a b : List Char, charListLt a b = false → charListLt b a = false → a = b := by
  intro a
  induction a with
  | nil =>
    intro b h1 h2
    cases b with
    | nil => rfl
    | cons y ys => simp [charListLt] at h1
  | cons x xs ih =>
    intro b h1 h2
    cases b with
    | nil => simp [charListLt] at h2
    | cons y ys =>
      simp only [charListLt] at h1 h2
      by_cases hxy : x < y
      · simp [hxy] at h1
      · by_cases hyx : y < x
        · simp [hxy, hyx] at h2
        · have hxey : x = y := le_antisymm (not_lt.mp hyx) (not_lt.mp hxy)
          rw [if_neg hxy, if_neg hyx] at h1
          rw [if_neg hyx, if_neg hxy] at h2
          rw [hxey, ih ys h1 h2]

theorem strListLe_trans :
    ∀ a b c : List String, strListLe a b = true → strListLe b c = true →
      strListLe a c = true := by
  intro a
  induction a with
  | nil => intro b c h1 h2; simp [strListLe]
  | cons x xs ih =>
    intro b c h1 h2
    cases b with
    | nil => simp [strListLe] at h1
    | cons y ys =>
      cases c with
      | nil => simp [strListLe] at h2
      | cons z zs =>
        simp only [strListLe] at h1 h2 ⊢
        by_cases hxy : strLtB x y = true
        · by_cases hyz : strLtB y z = true
          · simp [strLtB] at hxy hyz ⊢
            simp [charListLt_trans _ _ _ hxy hyz]
          · by_cases hzy : strLtB z y = true
            · simp [hyz, hzy] at h2
            · have hyez : y = z := String.ext
                (charListLt_connex _ _ (by simpa [strLtB] using hyz) (by simpa [strLtB] using hzy))
              subst hyez
              simp [hxy]
        · by_cases hyx : strLtB y x = true
          · simp [hxy, hyx] at h1
          · have hxey : x = y := String.ext
              (charListLt_connex _ _ (by simpa [strLtB] using hxy) (by simpa [strLtB] using hyx))
            subst hxey
            rw [if_neg hxy, if_neg hyx] at h1
            by_cases hyz : strLtB x z = true
            · simp [hyz]
            · by_cases hzy : strLtB z x = true
              · simp [hyz, hzy] at h2
              · rw [if_neg hyz, if_neg hzy] at h2 ⊢
                exact ih ys zs h1 h2

theorem charListLt_irrefl : ∀ a : List Char, charListLt a a = false := by
  intro a
  induction a with
  | nil => rfl
  | cons c cs ih => simp [charListLt, ih]

theorem charListLt_asymm {a b : List Char} (h : charListLt a b = true) :
    charListLt b a = false := by
  cases h2 : charListLt b a
  · rfl
  · have := charListLt_trans a b a h h2
    rw [charListLt_irrefl] at this
    exact this.symm

theorem strListLe_total :
    ∀ a b : List String, (strListLe a b || strListLe b a) = true := by
  intro a
  induction a with
  | nil => intro b; simp [strListLe]
  | cons x xs ih =>
    intro b
    cases b with
    | nil => simp [strListLe]
    | cons y ys =>
      simp only [strListLe]
      by_cases hxy : strLtB x y = true
      · have hyx : strLtB y x = false := charListLt_asymm hxy
        simp [hxy, hyx]
      · by_cases hyx : strLtB y x = true
        · simp [hxy, hyx]
        · rw [if_neg hxy, if_neg hyx, if_neg hyx, if_neg hxy]
          simpa using ih ys

/-! ## How the stripping `file[len(video_dir):]` interacts with the glob -/

theorem globDirname_empty : globDirname "" = "/" := rfl

theorem osJoin_of_dir_no_slash (d name : String) (hn : pyStartsWith name "/" = false)
    (hd : d ≠ "") (hds : pyEndsWith d "/" = false) : osJoin d name = d ++ "/" ++ name := by
  simp [osJoin, hn, hd, hds]

theorem osJoin_of_dir_slash (d name : String) (hn : pyStartsWith name "/" = false)
    (hd : d ≠ "") (hds : pyEndsWith d "/" = true) : osJoin d name = d ++ name := by
  simp [osJoin, hn, hd, hds]

/-- A `video_dir` with no trailing slash comes back unchanged from the
pattern split. -/
theorem globDirname_of_no_trailing_slash (video_dir : String)
    (hnd : pyEndsWith video_dir "/" = false) (hne : video_dir ≠ "") :
    globDirname video_dir = video_dir := by
  rcases h : video_dir.data.reverse with _ | ⟨c, rest⟩
  · exact absurd (String.ext (List.reverse_eq_nil_iff.mp h)) hne
  · have hc : ¬ ('/' = c) := by
      simp only [pyEndsWith, h] at hnd
      simp only [List.isPrefixOf] at hnd
      simpa using hnd
    have hcdf : (c == '/') = false := by
      cases hcc : c == '/'
      · rfl
      · exact absurd (beq_iff_eq.mp hcc).symm hc
    have hcd : c ∈ video_dir.data := List.mem_reverse.mp (h ▸ List.mem_cons_self c rest)
    have hall : ¬ ((video_dir ++ "/").data.all (fun ch => ch == '/') = true) := by
      intro hall
      have := List.all_eq_true.mp hall c (by
        rw [data_append]
        exact List.mem_append_left _ hcd)
      exact hc (beq_iff_eq.mp this).symm
    have hrev : (video_dir ++ "/").data.reverse = '/' :: c :: rest := by
      rw [data_append]
      simp [List.reverse_append, h]
    have hdw : List.dropWhile (fun ch => ch == '/') ((video_dir ++ "/").data.reverse) =
        c :: rest := by
      rw [hrev]
      simp [List.dropWhile_cons, hcdf]
    simp only [globDirname, if_neg hall, hdw]
    have hrr : (c :: rest).reverse = video_dir.data := by
      rw [← h, List.reverse_reverse]
    rw [hrr, str_mk_data]

/-- With no trailing slash on `video_dir`, the glob result is
`video_dir ++ "/" ++ name` and the stripping leaves a leading slash on the
name. -/
theorem stripped_of_no_trailing_slash (video_dir name : String)
    (hnd : pyEndsWith video_dir "/" = false)
    (hn : pyStartsWith name "/" = false) :
    stripLen video_dir (osJoin (globDirname video_dir) name) = String.mk ('/' :: name.data) := by
  by_cases hne : video_dir = ""
  · subst hne
    rw [globDirname_empty,
      osJoin_of_dir_slash "/" name hn (by decide) (by decide)]
    simp [stripLen, pySliceFrom, pyLen]
  · rw [globDirname_of_no_trailing_slash video_dir hnd hne,
      osJoin_of_dir_no_slash video_dir name hn hne hnd]
    simp only [stripLen, pySliceFrom, pyLen]
    have hdata : (video_dir ++ "/" ++ name).data = video_dir.data ++ ('/' :: name.data) := by
      rw [data_append, data_append]
      simp
    rw [hdata, List.drop_left]

/-- With exactly one trailing slash on `video_dir`, the stripping leaves
either the bare name (the normal, correct case) or, for `video_dir = "/"`,
the name with a leading slash. -/
theorem stripped_of_one_trailing_slash (video_dir name : String)
    (h1 : pyEndsWith video_dir "/" = true)
    (h2 : pyEndsWith video_dir "//" = false)
    (hn : pyStartsWith name "/" = false) :
    stripLen video_dir (osJoin (globDirname video_dir) name) = name ∨
    stripLen video_dir (osJoin (globDirname video_dir) name) = String.mk ('/' :: name.data) := by
  rcases h : video_dir.data.reverse with _ | ⟨c, rest⟩
  · rw [pyEndsWith, h] at h1
    simp [List.isPrefixOf] at h1
  · have hc : c = '/' := by
      rw [pyEndsWith, h] at h1
      simp only [List.isPrefixOf] at h1
      simpa using (beq_iff_eq.mp (by simpa using h1)).symm
    subst hc
    rcases hrest : rest with _ | ⟨c2, rest2⟩
    · -- `video_dir = "/"`: the double slash of the pattern survives in the
      -- glob results and the stripping leaves a leading slash
      subst hrest
      have hv : video_dir = "/" := by
        apply String.ext
        have := congrArg List.reverse h
        rwa [List.reverse_reverse] at this
      subst hv
      refine Or.inr ?_
      rw [show globDirname "/" = "//" from rfl,
        osJoin_of_dir_slash "//" name hn (by decide) (by decide)]
      simp [stripLen, pySliceFrom, pyLen]
    · subst hrest
      have hc2 : ¬ ('/' = c2) := by
        rw [pyEndsWith, h] at h2
        simp only [List.isPrefixOf] at h2
        simpa using h2
      have hc2f : (c2 == '/') = false := by
        cases hcc : c2 == '/'
        · rfl
        · exact absurd (beq_iff_eq.mp hcc).symm hc2
      refine Or.inl ?_
      have hvdata : video_dir.data = (c2 :: rest2).reverse ++ ['/'] := by
        have := congrArg List.reverse h
        rwa [List.reverse_reverse, List.reverse_cons] at this
      have hEne : (c2 :: rest2).reverse ≠ [] := by simp
      -- the pattern split strips both slashes of `video_dir ++ "/"`
      have hdir : globDirname video_dir = String.mk ((c2 :: rest2).reverse) := by
        have hcd : c2 ∈ (video_dir ++ "/").data := by
          rw [data_append, hvdata]
          refine List.mem_append_left _ (List.mem_append_left _ ?_)
          exact List.mem_reverse.mpr (List.mem_cons_self c2 rest2)
        have hall : ¬ ((video_dir ++ "/").data.all (fun ch => ch == '/') = true) := by
          intro hall
          exact hc2 (beq_iff_eq.mp (List.all_eq_true.mp hall c2 hcd)).symm
        have hrev : (video_dir ++ "/").data.reverse = '/' :: '/' :: c2 :: rest2 := by
          rw [data_append]
          simp [List.reverse_append, h]
        have hdw : List.dropWhile (fun ch => ch == '/') ((video_dir ++ "/").data.reverse) =
            c2 :: rest2 := by
          rw [hrev]
          simp [List.dropWhile_cons, hc2f]
        simp only [globDirname, if_neg hall, hdw]
      rw [hdir]
      have hEneStr : String.mk ((c2 :: rest2).reverse) ≠ "" := by
        intro hfalse
        exact hEne (congrArg String.data hfalse)
      have hEnoSlash : pyEndsWith (String.mk ((c2 :: rest2).reverse)) "/" = false := by
        simp only [pyEndsWith, List.reverse_reverse]
        simp [List.isPrefixOf, hc2f]
        intro hfalse
        exact absurd hfalse hc2
      rw [osJoin_of_dir_no_slash _ name hn hEneStr hEnoSlash]
      simp only [stripLen, pySliceFrom, pyLen]
      have hdata : (String.mk ((c2 :: rest2).reverse) ++ "/" ++ name).data =
          ((c2 :: rest2).reverse ++ ['/']) ++ name.data := by
        rw [data_append, data_append]
      rw [hdata, hvdata]
      rw [show ((c2 :: rest2).reverse ++ ['/'] : List Char).length =
          (((c2 :: rest2).reverse ++ ['/'] : List Char)).length from rfl]
      rw [List.drop_left ((c2 :: rest2).reverse ++ ['/']) name.data, str_mk_data]

/-- For a `video_dir` with at most one trailing slash, the stripped form of
a globbed path is the entry name, possibly with a leading slash. -/
theorem strippedForm (video_dir name : String)
    (hnd : pyEndsWith video_dir "//" = false)
    (hn : pyStartsWith name "/" = false) :
    stripLen video_dir (osJoin (globDirname video_dir) name) = name ∨
    stripLen video_dir (osJoin (globDirname video_dir) name) = String.mk ('/' :: name.data) := by
  cases h : pyEndsWith video_dir "/" with
  | false => exact Or.inr (stripped_of_no_trailing_slash video_dir name h hn)
  | true => exact stripped_of_one_trailing_slash video_dir name h hnd hn

/-! ## Scanner classification lemmas -/

/-- A directory entry that the `*.mp4` pattern accepts appears in the glob
output as the joined path. -/
theorem mem_globMp4 (video_dir name : String) (listing : List String)
    (hmem : name ∈ listing) (hmp4 : pyEndsWith name ".mp4" = true)
    (hhid : pyStartsWith name "." = false) :
    osJoin (globDirname video_dir) name ∈ globMp4 video_dir listing := by
  simp only [globMp4]
  exact List.mem_map.mpr ⟨name, List.mem_filter.mpr ⟨hmem, by simp [hmp4, hhid]⟩, rfl⟩

/-- Every entry of the multi-video list has at least two components (an id
and at least one sequence segment). -/
theorem multi_entry_length (video_dir : String) (listing : List String) :
    ∀ e ∈ (get_anth_ids video_dir listing).2, 2 ≤ e.length := by
  intro e he
  simp only [get_anth_ids] at he
  rw [List.mem_mergeSort] at he
  simp only [List.mem_map, List.mem_filter] at he
  obtain ⟨f, ⟨hf, hlen⟩, he⟩ := he
  subst he
  rw [List.length_dropLast]
  have := of_decide_eq_true hlen
  omega

/-- C2: a scanned filename of the form `<id>.mp4` — exactly two
period-delimited segments once the directory prefix is stripped — is
classified as the single-video identifier `<id>`, with no sequence number,
and it contributes no entry to the multi-video list (every multi-video
entry has a sequence component next to the id, so the bare `[<id>]` never
occurs there). -/
theorem claim_C2 (video_dir : String) (listing : List String) (name id : String)
    (hmem : name ∈ listing)
    (hmp4 : pyEndsWith name ".mp4" = true)
    (hhid : pyStartsWith name "." = false)
    (hsplit : pySplit (stripLen video_dir (osJoin (globDirname video_dir) name)) '.' =
      [id, "mp4"]) :
    id ∈ (get_anth_ids video_dir listing).1 ∧
    [id] ∉ (get_anth_ids video_dir listing).2 := by
  constructor
  · simp only [get_anth_ids]
    refine List.mem_map.mpr ⟨osJoin (globDirname video_dir) name, List.mem_filter.mpr
      ⟨mem_globMp4 video_dir name listing hmem hmp4 hhid, ?_⟩, ?_⟩
    · rw [hsplit]; rfl
    · rw [hsplit]; rfl
  · intro hbad
    have := multi_entry_length video_dir listing [id] hbad
    simp at this

/-- Witness for C2: the file `N13-1001.mp4` scanned from `d/`. -/
theorem claim_C2_witness :
    "N13-1001.mp4" ∈ ["N13-1001.mp4"] ∧
    pySplit (stripLen "d/" (osJoin (globDirname "d/") "N13-1001.mp4")) '.' =
      ["N13-1001", "mp4"] ∧
    ("N13-1001" ∈ (get_anth_ids "d/" ["N13-1001.mp4"]).1 ∧
     ["N13-1001"] ∉ (get_anth_ids "d/" ["N13-1001.mp4"]).2) :=
  ⟨by decide, by decide,
    claim_C2 "d/" ["N13-1001.mp4"] "N13-1001.mp4" "N13-1001"
      (by decide) (by decide) (by decide) (by decide)⟩

/-- C3: a scanned filename of the form `<id>.<n>.mp4` yields the pair
`[<id>, <n>]` in the multi-video list, and that list is sorted
lexicographically over the `(id, n)` pairs. -/
theorem claim_C3 (video_dir : String) (listing : List String) (name id n : String)
    (hmem : name ∈ listing)
    (hmp4 : pyEndsWith name ".mp4" = true)
    (hhid : pyStartsWith name "." = false)
    (_hnum : n.data.all Char.isDigit = true)
    (hsplit : pySplit (stripLen video_dir (osJoin (globDirname video_dir) name)) '.' =
      [id, n, "mp4"]) :
    [id, n] ∈ (get_anth_ids video_dir listing).2 ∧
    List.Pairwise (fun a b => strListLe a b = true) (get_anth_ids video_dir listing).2 := by
  constructor
  · simp only [get_anth_ids]
    rw [List.mem_mergeSort]
    refine List.mem_map.mpr ⟨osJoin (globDirname video_dir) name, List.mem_filter.mpr
      ⟨mem_globMp4 video_dir name listing hmem hmp4 hhid, ?_⟩, ?_⟩
    · rw [hsplit]; rfl
    · rw [hsplit]; rfl
  · simp only [get_anth_ids]
    exact List.sorted_mergeSort strListLe_trans strListLe_total _

/-- Witness for C3: the file `N13-4001.1.mp4` scanned from `d/` next to
`N13-4001.2.mp4`. -/
theorem claim_C3_witness :
    "N13-4001.1.mp4" ∈ ["N13-4001.2.mp4", "N13-4001.1.mp4"] ∧
    pySplit (stripLen "d/" (osJoin (globDirname "d/") "N13-4001.1.mp4")) '.' =
      ["N13-4001", "1", "mp4"] ∧
    (["N13-4001", "1"] ∈ (get_anth_ids "d/" ["N13-4001.2.mp4", "N13-4001.1.mp4"]).2 ∧
     List.Pairwise (fun a b => strListLe a b = true)
       (get_anth_ids "d/" ["N13-4001.2.mp4", "N13-4001.1.mp4"]).2) :=
  ⟨by decide, by decide,
    claim_C3 "d/" ["N13-4001.2.mp4", "N13-4001.1.mp4"] "N13-4001.1.mp4" "N13-4001" "1"
      (by decide) (by decide) (by decide) (by decide) (by decide)⟩

/-- C9: identifier derivation drops exactly `len(video_dir)` leading
characters from the globbed path; because the glob joins the directory part
and the entry name with a separator, a `video_dir` without a trailing slash
leaves the separator in the stripped name, so the derived identifier (the
first period-delimited piece) starts with `/`. -/
theorem claim_C9 (video_dir name : String)
    (hnd : pyEndsWith video_dir "/" = false)
    (hn : pyStartsWith name "/" = false) :
    stripLen video_dir (osJoin (globDirname video_dir) name) =
      String.mk ('/' :: name.data) ∧
    pyStartsWith
      ((pySplit (stripLen video_dir (osJoin (globDirname video_dir) name)) '.').headD "")
      "/" = true := by
  have h := stripped_of_no_trailing_slash video_dir name hnd hn
  refine ⟨h, ?_⟩
  rw [h]
  obtain ⟨h0, t0, hsp⟩ := splitCharAux_cons_ne '.' '/' name.data (by decide)
  simp only [pySplit]
  rw [hsp]
  simp [pyStartsWith, List.isPrefixOf]

/-- Witness for C9: scanning `d` (no trailing slash) for `x.mp4` derives
the identifier `/x`. -/
theorem claim_C9_witness :
    pyEndsWith "d" "/" = false ∧ pyStartsWith "x.mp4" "/" = false ∧
    (stripLen "d" (osJoin (globDirname "d") "x.mp4") = String.mk ('/' :: "x.mp4".data) ∧
     pyStartsWith
       ((pySplit (stripLen "d" (osJoin (globDirname "d") "x.mp4")) '.').headD "") "/" = true) :=
  ⟨by decide, by decide, claim_C9 "d" "x.mp4" (by decide) (by decide)⟩

/-- C8 as frozen is false: with `video_dir = "d///"` the file `x.mp4` is
matched by the `*.mp4` pattern (the glob output is `d/x.mp4`), yet its
stripped form is `mp4`, a single period-delimited segment, so the file is
classified into neither the single- nor the multi-video list. -/
theorem claim_C8_counterexample :
    globMp4 "d///" ["x.mp4"] = ["d/x.mp4"] ∧
    pySplit (stripLen "d///" "d/x.mp4") '.' = ["mp4"] ∧
    (get_anth_ids "d///" ["x.mp4"]).1 = [] ∧
    (get_anth_ids "d///" ["x.mp4"]).2 = [] := by
  refine ⟨by decide, by decide, by decide, ?_⟩
  have h : (get_anth_ids "d///" ["x.mp4"]).2 = List.mergeSort [] strListLe := rfl
  rw [h, List.mergeSort_nil]

/-- C8, amended: for a `video_dir` with at most one trailing separator,
every scanned file's stripped name has at least two period-delimited
segments, the two classification predicates (count equal to two, count
greater than two) exclude each other, and the file lands in the single- or
the multi-video list accordingly; a `video_dir` ending in a doubled
separator makes the stripping overshoot and can leave a scanned file in
neither list. -/
theorem claim_C8_amended (video_dir : String) (listing : List String) (name : String)
    (hmem : name ∈ listing)
    (hmp4 : pyEndsWith name ".mp4" = true)
    (hhid : pyStartsWith name "." = false)
    (hn : pyStartsWith name "/" = false)
    (hnd : pyEndsWith video_dir "//" = false) :
    2 ≤ (pySplit (stripLen video_dir (osJoin (globDirname video_dir) name)) '.').length ∧
    ¬((pySplit (stripLen video_dir (osJoin (globDirname video_dir) name)) '.').length = 2 ∧
      2 < (pySplit (stripLen video_dir (osJoin (globDirname video_dir) name)) '.').length) ∧
    ((pySplit (stripLen video_dir (osJoin (globDirname video_dir) name)) '.').length = 2 →
      (pySplit (stripLen video_dir (osJoin (globDirname video_dir) name)) '.').headD "" ∈
        (get_anth_ids video_dir listing).1) ∧
    (2 < (pySplit (stripLen video_dir (osJoin (globDirname video_dir) name)) '.').length →
      (pySplit (stripLen video_dir (osJoin (globDirname video_dir) name)) '.').dropLast ∈
        (get_anth_ids video_dir listing).2) := by
  have hdot : '.' ∈ name.data := by
    have hpre : ['4', 'p', 'm', '.'] <+: name.data.reverse := by
      rw [pyEndsWith] at hmp4
      exact List.isPrefixOf_iff_prefix.mp (by exact hmp4)
    obtain ⟨t, ht⟩ := hpre
    have : '.' ∈ name.data.reverse := by
      rw [← ht]
      simp
    exact List.mem_reverse.mp this
  have hlen : 2 ≤ (pySplit (stripLen video_dir (osJoin (globDirname video_dir) name)) '.').length := by
    have hcount : 1 ≤ (stripLen video_dir (osJoin (globDirname video_dir) name)).data.count '.' := by
      rcases strippedForm video_dir name hnd hn with hf | hf <;> rw [hf]
      · have : (name.data.count '.') ≠ 0 := by
          intro hzero
          exact (List.count_eq_zero.mp hzero) hdot
        omega
      · show 1 ≤ List.count '.' ('/' :: name.data)
        have hcc : (('/' :: name.data).count '.') = name.data.count '.' := by
          simp [List.count_cons]
        have : (name.data.count '.') ≠ 0 := by
          intro hzero
          exact (List.count_eq_zero.mp hzero) hdot
        omega
    rw [pySplit, List.length_map, length_splitCharAux]
    omega
  refine ⟨hlen, by omega, ?_, ?_⟩
  · intro h2
    simp only [get_anth_ids]
    refine List.mem_map.mpr ⟨osJoin (globDirname video_dir) name, List.mem_filter.mpr
      ⟨mem_globMp4 video_dir name listing hmem hmp4 hhid, ?_⟩, rfl⟩
    simp [h2]
  · intro h2
    simp only [get_anth_ids]
    rw [List.mem_mergeSort]
    refine List.mem_map.mpr ⟨osJoin (globDirname video_dir) name, List.mem_filter.mpr
      ⟨mem_globMp4 video_dir name listing hmem hmp4 hhid, ?_⟩, rfl⟩
    simpa using h2

/-- Witness for the amended C8 at `video_dir = "d"`, file `x.mp4`. -/
theorem claim_C8_amended_witness :
    "x.mp4" ∈ ["x.mp4"] ∧ pyEndsWith "d" "//" = false ∧
    (2 ≤ (pySplit (stripLen "d" (osJoin (globDirname "d") "x.mp4")) '.').length ∧
     ¬((pySplit (stripLen "d" (osJoin (globDirname "d") "x.mp4")) '.').length = 2 ∧
       2 < (pySplit (stripLen "d" (osJoin (globDirname "d") "x.mp4")) '.').length) ∧
     ((pySplit (stripLen "d" (osJoin (globDirname "d") "x.mp4")) '.').length = 2 →
       (pySplit (stripLen "d" (osJoin (globDirname "d") "x.mp4")) '.').headD "" ∈
         (get_anth_ids "d" ["x.mp4"]).1) ∧
     (2 < (pySplit (stripLen "d" (osJoin (globDirname "d") "x.mp4")) '.').length →
       (pySplit (stripLen "d" (osJoin (globDirname "d") "x.mp4")) '.').dropLast ∈
         (get_anth_ids "d" ["x.mp4"]).2)) :=
  ⟨by decide, by decide,
    claim_C8_amended "d" ["x.mp4"] "x.mp4"
      (by decide) (by decide) (by decide) (by decide) (by decide)⟩

/-! ## Locating and appending in the document tree -/

@[simp] theorem Xml.tag_elem (t : String) (a : List (String × String)) (c : List Xml) :
    (Xml.elem t a c).tag = t := rfl

@[simp] theorem Xml.attrs_elem (t : String) (a : List (String × String)) (c : List Xml) :
    (Xml.elem t a c).attrs = a := rfl

@[simp] theorem Xml.children_elem (t : String) (a : List (String × String)) (c : List Xml) :
    (Xml.elem t a c).children = c := rfl

theorem matchesStep_appendChild (t v : String) (x c : Xml) :
    matchesStep t v (appendChild x c) = matchesStep t v x := by
  cases x
  rfl

theorem matchesStep_congr (t v : String) (x y : Xml) (ht : y.tag = x.tag)
    (ha : y.attrs = x.attrs) : matchesStep t v y = matchesStep t v x := by
  simp [matchesStep, ht, ha]

theorem replaceFirst_eq_none {α : Type} (pred : α → Bool) (f : α → α) :
    ∀ l : List α, l.find? pred = none → replaceFirst pred f l = none := by
  intro l
  induction l with
  | nil => intro _; rfl
  | cons x xs ih =>
    intro h
    cases hp : pred x
    · rw [List.find?_cons_of_neg _ (by simp [hp])] at h
      simp [replaceFirst, hp, ih h]
    · rw [List.find?_cons_of_pos _ (by simp [hp])] at h
      cases h

theorem replaceFirst_eq_some {α : Type} (pred : α → Bool) (f : α → α)
    (hpf : ∀ a, pred a = true → pred (f a) = true) :
    ∀ l : List α, ∀ x, l.find? pred = some x →
      ∃ l2, replaceFirst pred f l = some l2 ∧ l2.find? pred = some (f x) := by
  intro l
  induction l with
  | nil => intro x h; cases h
  | cons a as ih =>
    intro x h
    cases hp : pred a
    · rw [List.find?_cons_of_neg _ (by simp [hp])] at h
      obtain ⟨l2, hl2, hf2⟩ := ih x h
      refine ⟨a :: l2, ?_, ?_⟩
      · simp [replaceFirst, hp, hl2]
      · rw [List.find?_cons_of_neg _ (by simp [hp])]
        exact hf2
    · rw [List.find?_cons_of_pos _ (by simp [hp])] at h
      obtain rfl : a = x := by injection h
      refine ⟨f a :: as, ?_, ?_⟩
      · simp [replaceFirst, hp]
      · rw [List.find?_cons_of_pos _ (by simp [hpf a hp])]

theorem firstSome_none_mapFirstSome {α β : Type} (g : α → Option β) (h : α → Option α)
    (hnone : ∀ x, g x = none → h x = none) :
    ∀ l : List α, firstSome g l = none → mapFirstSome h l = none := by
  intro l
  induction l with
  | nil => intro _; rfl
  | cons x xs ih =>
    intro hl
    cases hgx : g x
    · simp only [firstSome, hgx] at hl
      simp only [mapFirstSome, hnone x hgx, ih hl, Option.map_none']
    · simp only [firstSome, hgx] at hl
      exact Option.noConfusion hl

theorem firstSome_some_mapFirstSome {α β : Type} (g : α → Option β) (h : α → Option α)
    (post : β → β)
    (hnone : ∀ x, g x = none → h x = none)
    (hsome : ∀ x y, g x = some y → ∃ x2, h x = some x2 ∧ g x2 = some (post y)) :
    ∀ l : List α, ∀ y, firstSome g l = some y →
      ∃ l2, mapFirstSome h l = some l2 ∧ firstSome g l2 = some (post y) := by
  intro l
  induction l with
  | nil => intro y hy; cases hy
  | cons x xs ih =>
    intro y hy
    cases hgx : g x
    · simp only [firstSome, hgx] at hy
      obtain ⟨l2, hl2, hf2⟩ := ih y hy
      refine ⟨x :: l2, ?_, ?_⟩
      · simp only [mapFirstSome, hnone x hgx, hl2, Option.map_some']
      · simp only [firstSome, hgx]
        exact hf2
    · simp only [firstSome, hgx, Option.some.injEq] at hy
      subst hy
      obtain ⟨x2, hx2, hg2⟩ := hsome x _ hgx
      refine ⟨x2 :: xs, ?_, ?_⟩
      · simp only [mapFirstSome, hx2]
      · simp only [firstSome, hg2]

theorem appendInVolume_eq_none (p : String) (c : Xml) (vol : Xml)
    (h : findPaperInVolume p vol = none) : appendInVolume p c vol = none := by
  have := replaceFirst_eq_none (matchesStep "paper" p) (fun paper => appendChild paper c)
    vol.children h
  simp [appendInVolume, this]

theorem appendInVolume_eq_some (p : String) (c : Xml) (vol paper : Xml)
    (h : findPaperInVolume p vol = some paper) :
    ∃ vol2, appendInVolume p c vol = some vol2 ∧
      findPaperInVolume p vol2 = some (appendChild paper c) ∧
      vol2.tag = vol.tag ∧ vol2.attrs = vol.attrs := by
  obtain ⟨l2, hl2, hf2⟩ := replaceFirst_eq_some (matchesStep "paper" p)
    (fun paper => appendChild paper c)
    (fun a ha => by rw [matchesStep_appendChild]; exact ha) vol.children paper h
  refine ⟨Xml.elem vol.tag vol.attrs l2, ?_, ?_, rfl, rfl⟩
  · simp [appendInVolume, hl2]
  · simpa [findPaperInVolume] using hf2

theorem path_step_none (v p : String) (c : Xml) :
    ∀ x : Xml, (if matchesStep "volume" v x then findPaperInVolume p x else none) = none →
      (if matchesStep "volume" v x then appendInVolume p c x else none) = none := by
  intro x hx
  cases hm : matchesStep "volume" v x
  · simp [hm]
  · rw [if_pos (by simp [hm])] at hx ⊢
    exact appendInVolume_eq_none p c x hx

theorem path_step_some (v p : String) (c : Xml) :
    ∀ x paper, (if matchesStep "volume" v x then findPaperInVolume p x else none) =
        some paper →
      ∃ x2, (if matchesStep "volume" v x then appendInVolume p c x else none) = some x2 ∧
        (if matchesStep "volume" v x2 then findPaperInVolume p x2 else none) =
          some (appendChild paper c) := by
  intro x paper hx
  cases hm : matchesStep "volume" v x
  · simp [hm] at hx
  · rw [if_pos (by simp [hm])] at hx
    obtain ⟨vol2, h1, h2, ht, ha⟩ := appendInVolume_eq_some p c x paper hx
    have hm2 : matchesStep "volume" v vol2 = true :=
      (matchesStep_congr "volume" v x vol2 ht ha).trans hm
    refine ⟨vol2, ?_, ?_⟩
    · rw [if_pos (by simp [hm])]
      exact h1
    · rw [if_pos (by simp [hm2])]
      exact h2

/-- A path-query miss makes the insertion fail (the fatal case). -/
theorem findAndAppend_eq_none (root : Xml) (v p : String) (c : Xml)
    (h : findVolumePaper root v p = none) : findAndAppend root v p c = none := by
  have := firstSome_none_mapFirstSome
    (fun x => if matchesStep "volume" v x then findPaperInVolume p x else none)
    (fun x => if matchesStep "volume" v x then appendInVolume p c x else none)
    (path_step_none v p c) root.children h
  simp [findAndAppend, this]

/-- A path-query hit appends `c` as the last child of the located paper
node, and the locator finds exactly that grown node afterwards. -/
theorem findAndAppend_eq_some (root : Xml) (v p : String) (c : Xml) (paper : Xml)
    (h : findVolumePaper root v p = some paper) :
    ∃ root2, findAndAppend root v p c = some root2 ∧
      findVolumePaper root2 v p = some (appendChild paper c) := by
  obtain ⟨l2, hl2, hf2⟩ := firstSome_some_mapFirstSome
    (fun x => if matchesStep "volume" v x then findPaperInVolume p x else none)
    (fun x => if matchesStep "volume" v x then appendInVolume p c x else none)
    (fun y => appendChild y c)
    (path_step_none v p c) (path_step_some v p c) root.children paper h
  refine ⟨Xml.elem root.tag root.attrs l2, ?_, ?_⟩
  · simp [findAndAppend, hl2]
  · simpa [findVolumePaper] using hf2

/-- C1: in a document whose locator resolves volume `v` / paper `p` to the
node `paper`, inserting for an identifier that deconstructs to `(c, v, p)`
grows exactly that paper node by exactly one new child, appended last, with
reference `anth_id ++ ".mp4"`; for a sequence number `vid_num` the
reference is `anth_id ++ "." ++ vid_num ++ ".mp4"`. -/
theorem claim_C1 (root : Xml) (anth_id c v p vid_num : String) (paper : Xml)
    (hdec : deconstruct_anthology_id anth_id = (c, v, p))
    (hfind : findVolumePaper root v p = some paper) :
    (∃ root2, add_video_tag_single anth_id root = some root2 ∧
       findVolumePaper root2 v p = some (Xml.elem paper.tag paper.attrs
         (paper.children ++ [make_simple_element "video" [("href", anth_id ++ ".mp4")]]))) ∧
    (∃ root3, add_video_tag_multiple anth_id vid_num root = some root3 ∧
       findVolumePaper root3 v p = some (Xml.elem paper.tag paper.attrs
         (paper.children ++ [make_simple_element "video"
           [("href", anth_id ++ "." ++ vid_num ++ ".mp4")]]))) := by
  constructor
  · obtain ⟨root2, h1, h2⟩ := findAndAppend_eq_some root v p
      (make_simple_element "video" [("href", anth_id ++ ".mp4")]) paper hfind
    refine ⟨root2, ?_, h2⟩
    simp only [add_video_tag_single, hdec]
    exact h1
  · obtain ⟨root3, h1, h2⟩ := findAndAppend_eq_some root v p
      (make_simple_element "video" [("href", anth_id ++ "." ++ vid_num ++ ".mp4")]) paper hfind
    refine ⟨root3, ?_, h2⟩
    simp only [add_video_tag_multiple, hdec]
    exact h1

/-- Witness for C1: inserting `N13-1001` (and sequence `1`) into a document
with volume `13` / paper `1001`. -/
theorem claim_C1_witness :
    deconstruct_anthology_id "N13-1001" = ("N13", "13", "1001") ∧
    findVolumePaper exampleDoc "13" "1001" = some examplePaper ∧
    ((∃ root2, add_video_tag_single "N13-1001" exampleDoc = some root2 ∧
       findVolumePaper root2 "13" "1001" = some (Xml.elem examplePaper.tag examplePaper.attrs
         (examplePaper.children ++
           [make_simple_element "video" [("href", "N13-1001" ++ ".mp4")]]))) ∧
     (∃ root3, add_video_tag_multiple "N13-1001" "1" exampleDoc = some root3 ∧
       findVolumePaper root3 "13" "1001" = some (Xml.elem examplePaper.tag examplePaper.attrs
         (examplePaper.children ++ [make_simple_element "video"
           [("href", "N13-1001" ++ "." ++ "1" ++ ".mp4")]])))) :=
  ⟨rfl, rfl, claim_C1 exampleDoc "N13-1001" "N13" "13" "1001" "1" examplePaper rfl rfl⟩

/-- C5: the insertion carries no duplicate check: running it twice for the
same identifier on the same loaded document appends two identical `video`
children to the same paper node. -/
theorem claim_C5 (root : Xml) (anth_id c v p : String) (paper : Xml)
    (hdec : deconstruct_anthology_id anth_id = (c, v, p))
    (hfind : findVolumePaper root v p = some paper) :
    ∃ root2 root3,
      add_video_tag_single anth_id root = some root2 ∧
      add_video_tag_single anth_id root2 = some root3 ∧
      findVolumePaper root3 v p = some (Xml.elem paper.tag paper.attrs
        (paper.children ++
          [make_simple_element "video" [("href", anth_id ++ ".mp4")],
           make_simple_element "video" [("href", anth_id ++ ".mp4")]])) := by
  obtain ⟨root2, h1, h2⟩ := findAndAppend_eq_some root v p
    (make_simple_element "video" [("href", anth_id ++ ".mp4")]) paper hfind
  obtain ⟨root3, h3, h4⟩ := findAndAppend_eq_some root2 v p
    (make_simple_element "video" [("href", anth_id ++ ".mp4")]) _ h2
  refine ⟨root2, root3, ?_, ?_, ?_⟩
  · simp only [add_video_tag_single, hdec]
    exact h1
  · simp only [add_video_tag_single, hdec]
    exact h3
  · rw [h4]
    simp [appendChild]

/-- Witness for C5: inserting `N13-1001` twice into the same document. -/
theorem claim_C5_witness :
    deconstruct_anthology_id "N13-1001" = ("N13", "13", "1001") ∧
    findVolumePaper exampleDoc "13" "1001" = some examplePaper ∧
    (∃ root2 root3,
      add_video_tag_single "N13-1001" exampleDoc = some root2 ∧
      add_video_tag_single "N13-1001" root2 = some root3 ∧
      findVolumePaper root3 "13" "1001" = some (Xml.elem examplePaper.tag examplePaper.attrs
        (examplePaper.children ++
          [make_simple_element "video" [("href", "N13-1001" ++ ".mp4")],
           make_simple_element "video" [("href", "N13-1001" ++ ".mp4")]]))) :=
  ⟨rfl, rfl, claim_C5 exampleDoc "N13-1001" "N13" "13" "1001" examplePaper rfl rfl⟩

/-- C7: a path-query miss is unguarded and fatal: when the locator yields
no node for `(v, p)`, both insertion operations fail, and the per-document
loop of the orchestrator aborts on the first such identifier it matches. -/
theorem claim_C7 (root : Xml) (anth_id c v p vid_num data_dir cid ext : String)
    (rest : List String)
    (hdec : deconstruct_anthology_id anth_id = (c, v, p))
    (hmiss : findVolumePaper root v p = none) :
    add_video_tag_single anth_id root = none ∧
    add_video_tag_multiple anth_id vid_num root = none ∧
    (pyContains anth_id cid = true →
      processSingles data_dir cid ext (anth_id :: rest) root = none) := by
  have h1 : add_video_tag_single anth_id root = none := by
    simp only [add_video_tag_single, hdec]
    exact findAndAppend_eq_none root v p _ hmiss
  refine ⟨h1, ?_, ?_⟩
  · simp only [add_video_tag_multiple, hdec]
    exact findAndAppend_eq_none root v p _ hmiss
  · intro hin
    simp [processSingles, hin, h1]

/-- Witness for C7: the identifier `N13-9999` misses in a document that
only has paper `1001`. -/
theorem claim_C7_witness :
    deconstruct_anthology_id "N13-9999" = ("N13", "13", "9999") ∧
    findVolumePaper exampleDoc "13" "9999" = none ∧
    pyContains "N13-9999" "N13" = true ∧
    (add_video_tag_single "N13-9999" exampleDoc = none ∧
     add_video_tag_multiple "N13-9999" "1" exampleDoc = none ∧
     (pyContains "N13-9999" "N13" = true →
       processSingles "DATA" "N13" ".xml" ["N13-9999"] exampleDoc = none)) :=
  ⟨rfl, rfl, by decide,
    claim_C7 exampleDoc "N13-9999" "N13" "13" "9999" "1" "DATA" "N13" ".xml" []
      rfl rfl⟩

/-! ## The per-document loop and the write trace -/

/-- Full characterization of the single-video loop for one document: one
write per identifier the base code occurs in, the insertions are exactly
those of the matched identifiers in order, and every write targets the
document's own path. -/
theorem processSingles_spec (data_dir cid ext : String) :
    ∀ (ids : List String) (tree tree2 : Xml) (ws : List (String × Xml)),
      processSingles data_dir cid ext ids tree = some (tree2, ws) →
      ws.length = (ids.filter (fun a => pyContains a cid)).length ∧
      insertAllSingle (ids.filter (fun a => pyContains a cid)) tree = some tree2 ∧
      ∀ w ∈ ws, w.1 = update_xml_path data_dir cid ext := by
  intro ids
  induction ids with
  | nil =>
    intro tree tree2 ws h
    simp only [processSingles, Option.some.injEq, Prod.mk.injEq] at h
    obtain ⟨rfl, rfl⟩ := h
    exact ⟨rfl, rfl, by simp⟩
  | cons a rest ih =>
    intro tree tree2 ws h
    by_cases hc : pyContains a cid = true
    · simp only [processSingles, if_pos hc] at h
      cases hadd : add_video_tag_single a tree with
      | none =>
        rw [hadd] at h
        exact Option.noConfusion h
      | some t2 =>
        rw [hadd] at h
        replace h : Option.map
            (fun r => (r.1, (update_xml_path data_dir cid ext, t2) :: r.2))
            (processSingles data_dir cid ext rest t2) = some (tree2, ws) := h
        cases hrec : processSingles data_dir cid ext rest t2 with
        | none => rw [hrec] at h; exact Option.noConfusion h
        | some r =>
          obtain ⟨t3, ws3⟩ := r
          rw [hrec] at h
          simp only [Option.map_some', Option.some.injEq, Prod.mk.injEq] at h
          obtain ⟨rfl, rfl⟩ := h
          obtain ⟨hl, hi, hw⟩ := ih t2 t3 ws3 hrec
          refine ⟨?_, ?_, ?_⟩
          · simp [List.filter_cons, hc, hl]
          · simp only [List.filter_cons, hc, if_pos trivial, insertAllSingle, hadd,
              Option.some_bind]
            exact hi
          · intro w hwmem
            rcases List.mem_cons.mp hwmem with hweq | hwtail
            · rw [hweq]
            · exact hw w hwtail
    · have hcf : pyContains a cid = false := by
        cases hx : pyContains a cid
        · rfl
        · exact absurd hx hc
      simp only [processSingles, if_neg hc] at h
      obtain ⟨hl, hi, hw⟩ := ih tree tree2 ws h
      refine ⟨?_, ?_, hw⟩
      · simp only [List.filter_cons, hcf]
        exact hl
      · simp only [List.filter_cons, hcf]
        exact hi

/-- Every write of the multi-video loop targets the document's own path. -/
theorem processMultiples_writes (data_dir cid ext : String) :
    ∀ (entries : List (List String)) (tree tree2 : Xml) (ws : List (String × Xml)),
      processMultiples data_dir cid ext entries tree = some (tree2, ws) →
      ∀ w ∈ ws, w.1 = update_xml_path data_dir cid ext := by
  intro entries
  induction entries with
  | nil =>
    intro tree tree2 ws h
    simp only [processMultiples, Option.some.injEq, Prod.mk.injEq] at h
    obtain ⟨rfl, rfl⟩ := h
    simp
  | cons e rest ih =>
    intro tree tree2 ws h
    by_cases hc : pyContains (e.headD "") cid = true
    · simp only [processMultiples, if_pos hc] at h
      cases hadd : add_video_tag_multiple (e.headD "") (e.getD 1 "") tree with
      | none =>
        rw [hadd] at h
        exact Option.noConfusion h
      | some t2 =>
        rw [hadd] at h
        replace h : Option.map
            (fun r => (r.1, (update_xml_path data_dir cid ext, t2) :: r.2))
            (processMultiples data_dir cid ext rest t2) = some (tree2, ws) := h
        cases hrec : processMultiples data_dir cid ext rest t2 with
        | none => rw [hrec] at h; exact Option.noConfusion h
        | some r =>
          obtain ⟨t3, ws3⟩ := r
          rw [hrec] at h
          simp only [Option.map_some', Option.some.injEq, Prod.mk.injEq] at h
          obtain ⟨rfl, rfl⟩ := h
          intro w hwmem
          rcases List.mem_cons.mp hwmem with hweq | hwtail
          · rw [hweq]
          · exact ih t2 t3 ws3 hrec w hwtail
    · simp only [processMultiples, if_neg hc] at h
      exact ih tree tree2 ws h

/-- Reassembling the two pieces of `os.path.splitext` gives back the name. -/
theorem pySplitext_append (p : String) : (pySplitext p).1 ++ (pySplitext p).2 = p := by
  apply String.ext
  rw [data_append]
  simp [pySplitext]

/-- Every write of one document's processing targets
`os.path.join(data_dir, file)`. -/
theorem processFile_writes (data_dir : String) (singles : List String)
    (multiples : List (List String)) (file : String) (tree tree2 : Xml)
    (ws : List (String × Xml))
    (h : processFile data_dir singles multiples file tree = some (tree2, ws)) :
    ∀ w ∈ ws, w.1 = osJoin data_dir file := by
  simp only [processFile] at h
  cases h1 : processSingles data_dir (pySplitext file).1 (pySplitext file).2 singles tree with
  | none => rw [h1] at h; exact Option.noConfusion h
  | some r1 =>
    obtain ⟨t1, ws1⟩ := r1
    rw [h1] at h
    replace h : Option.map (fun r2 => (r2.1, ws1 ++ r2.2))
        (processMultiples data_dir (pySplitext file).1 (pySplitext file).2 multiples t1) =
        some (tree2, ws) := h
    cases h2 : processMultiples data_dir (pySplitext file).1 (pySplitext file).2
        multiples t1 with
    | none => rw [h2] at h; exact Option.noConfusion h
    | some r2 =>
      obtain ⟨t2, ws2⟩ := r2
      rw [h2] at h
      simp only [Option.map_some', Option.some.injEq, Prod.mk.injEq] at h
      obtain ⟨rfl, rfl⟩ := h
      intro w hw
      have hpath : update_xml_path data_dir (pySplitext file).1 (pySplitext file).2 =
          osJoin data_dir file := by
        rw [update_xml_path, pySplitext_append]
      rcases List.mem_append.mp hw with hw1 | hw2
      · rw [(processSingles_spec data_dir (pySplitext file).1 (pySplitext file).2
          singles tree t1 ws1 h1).2.2 w hw1, hpath]
      · rw [processMultiples_writes data_dir (pySplitext file).1 (pySplitext file).2
          multiples t1 t2 ws2 h2 w hw2, hpath]

/-- Every write of the whole run comes from one of the processed files. -/
theorem processFiles_writes (data_dir : String) (load : String → Xml)
    (singles : List String) (multiples : List (List String)) :
    ∀ (files : List String) (ws : List (String × Xml)),
      processFiles data_dir load singles multiples files = some ws →
      ∀ w ∈ ws, ∃ file ∈ files, w.1 = osJoin data_dir file := by
  intro files
  induction files with
  | nil =>
    intro ws h
    simp only [processFiles, Option.some.injEq] at h
    subst h
    simp
  | cons file rest ih =>
    intro ws h
    simp only [processFiles] at h
    cases h1 : processFile data_dir singles multiples file (load (osJoin data_dir file)) with
    | none => rw [h1] at h; exact Option.noConfusion h
    | some r =>
      obtain ⟨t1, ws1⟩ := r
      rw [h1] at h
      replace h : Option.map (fun wsr => ws1 ++ wsr)
          (processFiles data_dir load singles multiples rest) = some ws := h
      cases h2 : processFiles data_dir load singles multiples rest with
      | none => rw [h2] at h; exact Option.noConfusion h
      | some wsr =>
        rw [h2] at h
        simp only [Option.map_some', Option.some.injEq] at h
        subst h
        intro w hw
        rcases List.mem_append.mp hw with hw1 | hw2
        · exact ⟨file, List.mem_cons_self _ _,
            processFile_writes data_dir singles multiples file _ t1 ws1 h1 w hw1⟩
        · obtain ⟨f2, hf2, hp2⟩ := ih wsr h2 w hw2
          exact ⟨f2, List.mem_cons_of_mem _ hf2, hp2⟩

/-- Joining distinct clean names onto the same directory gives distinct
paths. -/
theorem osJoin_inj (d a b : String) (ha : pyStartsWith a "/" = false)
    (hb : pyStartsWith b "/" = false) (h : osJoin d a = osJoin d b) : a = b := by
  by_cases hd : d = ""
  · subst hd
    simpa [osJoin, ha, hb] using h
  · by_cases hds : pyEndsWith d "/" = true
    · rw [osJoin_of_dir_slash d a ha hd hds, osJoin_of_dir_slash d b hb hd hds] at h
      apply String.ext
      have h2 := congrArg String.data h
      rw [data_append, data_append] at h2
      exact List.append_cancel_left h2
    · have hds2 : pyEndsWith d "/" = false := by
        cases hx : pyEndsWith d "/"
        · rfl
        · exact absurd hx hds
      rw [osJoin_of_dir_no_slash d a ha hd hds2, osJoin_of_dir_no_slash d b hb hd hds2] at h
      apply String.ext
      have h2 := congrArg String.data h
      rw [data_append, data_append, data_append, data_append] at h2
      exact List.append_cancel_left h2

/-- C4 as frozen is false. For candidate document `N13.xml` the scanner of
`d/` yields the single-video identifiers `N13-1001` and `X99-N134`. Only
the first has a collection/volume portion (the part before the dash, which
carries the collection code and its volume-code tail) containing the base
code `N13`; in `X99-N134` the base code occurs inside the paper portion
only. Yet the per-document loop inserts and writes for both: two writes,
where the claim predicts exactly one. -/
theorem claim_C4_counterexample :
    (get_anth_ids "d/" ["N13-1001.mp4", "X99-N134.mp4"]).1 = ["N13-1001", "X99-N134"] ∧
    select_xml_files (get_collection_ids "d/" ["N13-1001.mp4", "X99-N134.mp4"])
      ["N13.xml"] = ["N13.xml"] ∧
    pySplitext "N13.xml" = ("N13", ".xml") ∧
    (["N13-1001", "X99-N134"].filter
       (fun a => pyContains (deconstruct_anthology_id a).1 "N13")) = ["N13-1001"] ∧
    processSingles "DATA" "N13" ".xml" ["N13-1001", "X99-N134"] mixedDoc =
      some (mixedDoc2, [("DATA/N13.xml", mixedDoc1), ("DATA/N13.xml", mixedDoc2)]) :=
  ⟨rfl, rfl, rfl, rfl, rfl⟩

/-- C4, amended: for each candidate document the single-video loop locates,
inserts and writes for exactly those identifiers whose full identifier
string textually contains the document's base code (not merely the
collection/volume portion), and the write happens once per matched
identifier, so a document with N matches is rewritten N times. -/
theorem claim_C4_amended (data_dir cid ext : String) (ids : List String)
    (tree tree2 : Xml) (ws : List (String × Xml))
    (h : processSingles data_dir cid ext ids tree = some (tree2, ws)) :
    ws.length = (ids.filter (fun a => pyContains a cid)).length ∧
    insertAllSingle (ids.filter (fun a => pyContains a cid)) tree = some tree2 ∧
    ∀ w ∈ ws, w.1 = update_xml_path data_dir cid ext :=
  processSingles_spec data_dir cid ext ids tree tree2 ws h

/-- Witness for the amended C4: of `N13-1001` and `zzz` only the first
contains `N13`, so one insertion and one write happen. -/
theorem claim_C4_amended_witness :
    processSingles "DATA" "N13" ".xml" ["N13-1001", "zzz"] exampleDoc =
      some (exampleDoc1, [("DATA/N13.xml", exampleDoc1)]) ∧
    ([("DATA/N13.xml", exampleDoc1)].length =
       (["N13-1001", "zzz"].filter (fun a => pyContains a "N13")).length ∧
     insertAllSingle (["N13-1001", "zzz"].filter (fun a => pyContains a "N13")) exampleDoc =
       some exampleDoc1 ∧
     ∀ w ∈ [("DATA/N13.xml", exampleDoc1)], w.1 = update_xml_path "DATA" "N13" ".xml") :=
  ⟨rfl, claim_C4_amended "DATA" "N13" ".xml" ["N13-1001", "zzz"] exampleDoc exampleDoc1
    [("DATA/N13.xml", exampleDoc1)] rfl⟩

/-- C6: the selected documents are exactly the entries of the metadata
store whose base name (without extension) is one of the observed collection
codes; concretely, for observed codes `{N13, Q13}` and a store
`{N13.xml, Q13.xml, R13.xml}`, exactly `N13.xml` and `Q13.xml` are
selected. -/
theorem claim_C6 :
    (∀ (ids listing : List String) (file : String),
       file ∈ select_xml_files ids listing ↔
         file ∈ listing ∧ (pySplitext file).1 ∈ ids) ∧
    get_collection_ids "d/" ["N13-1001.mp4", "Q13-2002.mp4"] = ["N13", "Q13"] ∧
    select_xml_files (get_collection_ids "d/" ["N13-1001.mp4", "Q13-2002.mp4"])
      ["N13.xml", "Q13.xml", "R13.xml"] = ["N13.xml", "Q13.xml"] := by
  refine ⟨?_, rfl, rfl⟩
  intro ids listing file
  simp [select_xml_files, List.mem_filter]

/-- C10: every write of a completed run targets
`os.path.join(data_dir, file)` for a metadata-store entry `file` whose base
name is an observed collection code; a store entry whose base name is not
an observed code is never written (and files outside the store directory
are never touched: the trace contains every write the run performs). -/
theorem claim_C10 (video_dir data_dir : String) (vlist dlist : List String)
    (load : String → Xml) (ws : List (String × Xml))
    (hrun : main_model video_dir data_dir vlist dlist load = some ws)
    (hclean : ∀ f ∈ dlist, pyStartsWith f "/" = false) :
    (∀ w ∈ ws, ∃ file, file ∈ dlist ∧
       (get_collection_ids video_dir vlist).contains (pySplitext file).1 = true ∧
       w.1 = osJoin data_dir file) ∧
    (∀ file ∈ dlist,
       (get_collection_ids video_dir vlist).contains (pySplitext file).1 = false →
       ∀ w ∈ ws, w.1 ≠ osJoin data_dir file) := by
  have hrun2 : processFiles data_dir load (get_anth_ids video_dir vlist).1
      (get_anth_ids video_dir vlist).2
      (select_xml_files (get_collection_ids video_dir vlist) dlist) = some ws := hrun
  have hpart1 : ∀ w ∈ ws, ∃ file, file ∈ dlist ∧
      (get_collection_ids video_dir vlist).contains (pySplitext file).1 = true ∧
      w.1 = osJoin data_dir file := by
    intro w hw
    obtain ⟨file, hfmem, hfpath⟩ := processFiles_writes data_dir load
      (get_anth_ids video_dir vlist).1 (get_anth_ids video_dir vlist).2
      (select_xml_files (get_collection_ids video_dir vlist) dlist) ws hrun2 w hw
    obtain ⟨hfl, hfc⟩ := List.mem_filter.mp hfmem
    exact ⟨file, hfl, hfc, hfpath⟩
  refine ⟨hpart1, ?_⟩
  intro file hfl hfc w hw heq
  obtain ⟨file2, hfl2, hfc2, hfp2⟩ := hpart1 w hw
  have : file2 = file := osJoin_inj data_dir file2 file
    (hclean file2 hfl2) (hclean file hfl) (hfp2 ▸ heq)
  rw [this] at hfc2
  rw [hfc2] at hfc
  exact Bool.noConfusion hfc

/-- Witness for C10: a run over one video and a store with a selected and
an unselected document. -/
theorem claim_C10_witness :
    main_model "d/" "DATA" ["N13-1001.mp4"] ["N13.xml", "R13.xml"] (fun _ => exampleDoc) =
      some [("DATA/N13.xml", exampleDoc1)] ∧
    ((∀ w ∈ [("DATA/N13.xml", exampleDoc1)], ∃ file, file ∈ ["N13.xml", "R13.xml"] ∧
        (get_collection_ids "d/" ["N13-1001.mp4"]).contains (pySplitext file).1 = true ∧
        w.1 = osJoin "DATA" file) ∧
     (∀ file ∈ ["N13.xml", "R13.xml"],
        (get_collection_ids "d/" ["N13-1001.mp4"]).contains (pySplitext file).1 = false →
        ∀ w ∈ [("DATA/N13.xml", exampleDoc1)], w.1 ≠ osJoin "DATA" file)) := by
  have h0 : main_model "d/" "DATA" ["N13-1001.mp4"] ["N13.xml", "R13.xml"]
      (fun _ => exampleDoc) =
      processFiles "DATA" (fun _ => exampleDoc) ["N13-1001"]
        (List.mergeSort [] strListLe) ["N13.xml"] := rfl
  have hrun : main_model "d/" "DATA" ["N13-1001.mp4"] ["N13.xml", "R13.xml"]
      (fun _ => exampleDoc) = some [("DATA/N13.xml", exampleDoc1)] := by
    rw [h0, List.mergeSort_nil]
    rfl
  exact ⟨hrun, claim_C10 "d/" "DATA" ["N13-1001.mp4"] ["N13.xml", "R13.xml"]
    (fun _ => exampleDoc) [("DATA/N13.xml", exampleDoc1)] hrun (by decide)⟩
